import Mathlib

/-!
Verification development for the symbol-art-vault server
(src/server/index.js together with the SQL schema dump).

The relational store is embedded shallowly: each table is a list of rows,
a SQL statement is a pure function on the store state, and the fact that
the server sends each multi-row write as a single SQL statement is
modelled by a wrapper that discards the intermediate state on error
(PostgreSQL single-statement atomicity).  Full-text search primitives
(to_tsvector / plainto_tsquery / ts_rank) are embedded at the level the
handlers use them: a tsvector is a list of (lexeme, weight) pairs obtained
by whitespace tokenization after lowercasing, and the rank is a
deterministic function of the vector and the query that is zero exactly
when no query lexeme occurs in the vector.  Stemming and stop words are
below the abstraction level of every claim and are not modelled.
-/

namespace SymbolArtVault

/-- A row of the files table (schema dump: CREATE TABLE public.files). -/
structure FileRow where
  fileId : Int
  fileObjectKey : String
  previewImagePath : String
  filePropsName : Option String
  filePropsSound : Option Int
  filePropsLayerCount : Option Int
  deriving DecidableEq

/-- A row of the posts table (schema dump: CREATE TABLE public.posts).
The description column is nullable in the schema but every write path of
the server supplies a string (empty string when the field is absent), so
it is embedded as String. -/
structure PostRow where
  postId : Int
  fileId : Int
  userId : Int
  createdAt : Int
  title : String
  description : String
  deriving DecidableEq

/-- A row of the users table (schema dump: CREATE TABLE public.users). -/
structure UserRow where
  userId : Int
  username : String
  hashedPassword : String
  createdAt : Int
  deriving DecidableEq

/-- A row of the taggings table (schema dump: CREATE TABLE public.taggings).
Note the schema puts no primary key or unique constraint on this table. -/
structure TaggingRow where
  tagName : String
  postId : Int
  deriving DecidableEq

/-- The store state: the five tables, the two identity sequences the write
paths use, and the clock that supplies the now() default of createdAt.
The tags table is a list of names (its only column is tagName, the primary
key). -/
structure DB where
  files : List FileRow
  posts : List PostRow
  users : List UserRow
  tags : List String
  taggings : List TaggingRow
  fileSeq : Int
  postSeq : Int
  clock : Int
  deriving DecidableEq

/-- The observable outcome of one request, as produced by the express
handlers: a JSON payload, an error response produced by a thrown
ClientError routed through the error middleware (status code and message),
a redirect to a download locator (object key and attachment filename), or
no response at all (a promise rejection with no catch handler attached, so
no HTTP response is ever sent for the request). -/
inductive Outcome (α : Type) where
  | json : α → Outcome α
  | clientError : Nat → String → Outcome α
  | redirect : String → String → Outcome α
  | noResponse : Outcome α
  deriving DecidableEq

/-- A handler result: whether a query was sent to the store, and the
observable outcome. -/
structure Resp (α : Type) where
  storeQueried : Bool
  outcome : Outcome α
  deriving DecidableEq

/-- Split a character list at every occurrence of characters satisfying a
predicate.  The empty list yields one empty token, exactly like the
JavaScript String.split with a one-character separator. -/
def splitOnPred (p : Char → Bool) : List Char → List (List Char)
  | [] => [[]]
  | x :: xs =>
    if p x then [] :: splitOnPred p xs
    else
      match splitOnPred p xs with
      | [] => [[x]]
      | h :: t => (x :: h) :: t

/-- The JavaScript rawTags.split(',') used by the upload handler. -/
def strSplitComma (s : String) : List String :=
  (splitOnPred (fun c => c = ',') s.data).map String.mk

/-- Strip leading and trailing whitespace from a character list. -/
def charTrim (l : List Char) : List Char :=
  ((l.dropWhile Char.isWhitespace).reverse.dropWhile Char.isWhitespace).reverse

/-- The JavaScript String.trim used on every tag token. -/
def strTrim (s : String) : String :=
  String.mk (charTrim s.data)

/-- Join strings with a single-space separator: the SQL
array_to_string(array_agg(tagName), ' ') that builds the tagSearch blob. -/
def spaceJoin : List String → String
  | [] => ""
  | [x] => x
  | x :: xs => String.mk (x.data ++ [' '] ++ (spaceJoin xs).data)

/-- Parse a non-empty all-digit character list as a natural number. -/
def digitsToNatAux : List Char → Nat → Option Nat
  | [], acc => some acc
  | c :: cs, acc =>
    if '0' ≤ c ∧ c ≤ '9' then digitsToNatAux cs (acc * 10 + (c.toNat - '0'.toNat))
    else none

/-- Parse a digit string; none on the empty list or any non-digit. -/
def digitsToNat? (l : List Char) : Option Nat :=
  match l with
  | [] => none
  | _ => digitsToNatAux l 0

/-- Parse an optionally signed digit string. -/
def signedInt? (t : List Char) : Option Int :=
  match t with
  | '-' :: r => (digitsToNat? r).map (fun n => -(n : Int))
  | '+' :: r => (digitsToNat? r).map (fun n => (n : Int))
  | _ => (digitsToNat? t).map (fun n => (n : Int))

/-- A JavaScript number as produced by Number() on a string: NaN is
represented as none at the call sites, the infinities explicitly, and
finite values exactly as rationals.  Every string numeric literal denotes
a rational, so this carries strictly more information than the IEEE
double; the only observable use here is the sign/NaN test and the
comparison against 1 and 2147483647, where double rounding (including
overflow to infinity above 1e308, which lands on the same out-of-bounds
side) cannot change the outcome for the literals the grammar below
accepts. -/
inductive JsNum where
  | finite : ℚ → JsNum
  | posInf : JsNum
  | negInf : JsNum
  deriving DecidableEq

/-- Negation of a JavaScript number, for a leading minus sign. -/
def jsNeg : JsNum → JsNum
  | JsNum.finite q => JsNum.finite (-q)
  | JsNum.posInf => JsNum.negInf
  | JsNum.negInf => JsNum.posInf

/-- Value of one digit character in bases up to 16. -/
def hexDigitVal? (c : Char) : Option Nat :=
  if '0' ≤ c ∧ c ≤ '9' then some (c.toNat - '0'.toNat)
  else if 'a' ≤ c ∧ c ≤ 'f' then some (c.toNat - 'a'.toNat + 10)
  else if 'A' ≤ c ∧ c ≤ 'F' then some (c.toNat - 'A'.toNat + 10)
  else none

/-- Accumulate a digit string in the given base; none on any non-digit. -/
def digitsValAux (base : Nat) : List Char → Nat → Option Nat
  | [], acc => some acc
  | c :: cs, acc =>
    match hexDigitVal? c with
    | none => none
    | some d => if d < base then digitsValAux base cs (acc * base + d) else none

/-- A JavaScript NonDecimalIntegerLiteral body (the digits after 0x, 0o or
0b): at least one digit of the base. -/
def jsRadixVal? (base : Nat) (l : List Char) : Option JsNum :=
  match l with
  | [] => none
  | _ => (digitsValAux base l 0).map (fun n => JsNum.finite (mkRat n 1))

/-- Split at the first exponent marker e or E. -/
def splitOnExpChar : List Char → List Char × Option (List Char)
  | [] => ([], none)
  | c :: cs =>
    if c = 'e' ∨ c = 'E' then ([], some cs)
    else
      let r := splitOnExpChar cs
      (c :: r.1, r.2)

/-- Split at the first decimal point. -/
def splitOnDotChar : List Char → List Char × Option (List Char)
  | [] => ([], none)
  | c :: cs =>
    if c = '.' then ([], some cs)
    else
      let r := splitOnDotChar cs
      (c :: r.1, r.2)

/-- The signed exponent of a decimal literal: optional sign, at least one
decimal digit. -/
def jsExpVal? (l : List Char) : Option Int :=
  match l with
  | '+' :: r =>
    match r with
    | [] => none
    | _ => (digitsValAux 10 r 0).map (fun n => (n : Int))
  | '-' :: r =>
    match r with
    | [] => none
    | _ => (digitsValAux 10 r 0).map (fun n => -(n : Int))
  | [] => none
  | _ => (digitsValAux 10 l 0).map (fun n => (n : Int))

/-- The exact rational mantissa * 10 ^ (exponent - fracLen). -/
def jsScaled (mant : Nat) (fracLen : Nat) (ev : Int) : ℚ :=
  let s : Int := ev - (fracLen : Int)
  if 0 ≤ s then mkRat ((mant : Int) * (10 ^ s.toNat : Nat)) 1
  else mkRat (mant : Int) (10 ^ (-s).toNat)

/-- An unsigned JavaScript StrUnsignedDecimalLiteral without the Infinity
alternative: digits [. digits?] [exp] or . digits [exp]. -/
def jsDecimalVal? (l : List Char) : Option ℚ :=
  let me := splitOnExpChar l
  let md := splitOnDotChar me.1
  let expVal? : Option Int :=
    match me.2 with
    | none => some 0
    | some e => jsExpVal? e
  match expVal? with
  | none => none
  | some ev =>
    match md.2 with
    | none =>
      match md.1 with
      | [] => none
      | _ => (digitsValAux 10 md.1 0).map (fun i => jsScaled i 0 ev)
    | some fp =>
      if md.1 = [] ∧ fp = [] then none
      else
        match digitsValAux 10 md.1 0, digitsValAux 10 fp 0 with
        | some i, some f =>
          some (jsScaled (i * 10 ^ fp.length + f) fp.length ev)
        | _, _ => none

/-- An unsigned JavaScript StrUnsignedDecimalLiteral: Infinity or a
decimal literal. -/
def jsStrUnsigned? (l : List Char) : Option JsNum :=
  if l = "Infinity".data then some JsNum.posInf
  else (jsDecimalVal? l).map JsNum.finite

/-- JavaScript Number() coercion of a string, per the StringNumericLiteral
grammar: surrounding whitespace stripped; the empty (or all-whitespace)
string is 0; an optional sign followed by Infinity or a decimal literal
(digits, optional fraction, optional exponent); an unsigned 0x/0o/0b
radix literal.  Anything else is NaN (none). -/
def jsToNumber (s : String) : Option JsNum :=
  match charTrim s.data with
  | [] => some (JsNum.finite 0)
  | '0' :: 'x' :: r => jsRadixVal? 16 r
  | '0' :: 'X' :: r => jsRadixVal? 16 r
  | '0' :: 'o' :: r => jsRadixVal? 8 r
  | '0' :: 'O' :: r => jsRadixVal? 8 r
  | '0' :: 'b' :: r => jsRadixVal? 2 r
  | '0' :: 'B' :: r => jsRadixVal? 2 r
  | '+' :: r => jsStrUnsigned? r
  | '-' :: r => (jsStrUnsigned? r).map jsNeg
  | t => jsStrUnsigned? t

/-- The guard comparison id >= 1 on the coerced number. -/
def jsGeOne : JsNum → Bool
  | JsNum.finite q => decide (1 ≤ q)
  | JsNum.posInf => true
  | JsNum.negInf => false

/-- The guard comparison id <= 2147483647 on the coerced number. -/
def jsLeMax : JsNum → Bool
  | JsNum.finite q => decide (q ≤ 2147483647)
  | JsNum.posInf => false
  | JsNum.negInf => true

/-- Modelled from the spec: the error middleware (server code required as
./error-middleware but not present under src/) maps a store-statement
failure that a handler forwards through next(err) to a StorageFailure
response carrying status 500; spec section 7: store failures abort the
whole operation and surface as StorageFailure, with no internal store
detail leaked. -/
def storageFailureMsg : String := "StorageFailure"

/-- PostgreSQL cast of a text parameter to int4: optional surrounding
whitespace, optional sign, decimal digits, and the int4 range check;
anything else makes the statement fail. -/
def pgInt4Cast (s : String) : Option Int :=
  match signedInt? (charTrim s.data) with
  | none => none
  | some n => if -2147483648 ≤ n ∧ n ≤ 2147483647 then some n else none

/-- PostgreSQL cast of a text parameter to bigint (used for the offset
parameter of the paged catalog). -/
def pgBigintCast (s : String) : Option Int :=
  signedInt? (charTrim s.data)

/-- Insert an element into a list that is sorted by descending key,
keeping it sorted (the comparison used by ORDER BY key DESC). -/
def insSortedDesc {α β : Type} [LinearOrder β] (f : α → β) (x : α) : List α → List α
  | [] => [x]
  | y :: ys => if f x ≤ f y then y :: insSortedDesc f x ys else x :: y :: ys

/-- Sort a list by descending key (ORDER BY key DESC). -/
def sortedByDesc {α β : Type} [LinearOrder β] (f : α → β) : List α → List α
  | [] => []
  | x :: xs => insSortedDesc f x (sortedByDesc f xs)

/-- Insert an element into a list that is sorted by ascending key. -/
def insSortedAsc {α β : Type} [LinearOrder β] (f : α → β) (x : α) : List α → List α
  | [] => [x]
  | y :: ys => if f y ≤ f x then y :: insSortedAsc f x ys else x :: y :: ys

/-- Sort a list by ascending key (ORDER BY key). -/
def sortedByAsc {α β : Type} [LinearOrder β] (f : α → β) : List α → List α
  | [] => []
  | x :: xs => insSortedAsc f x (sortedByAsc f xs)

/-- The tag names stored for one post, in taggings-table order: the
array_agg(tagName) group for that postId. -/
def tagNamesOf (db : DB) (pid : Int) : List String :=
  (db.taggings.filter (fun t => decide (t.postId = pid))).map (fun t => t.tagName)

/-- The tag_arrays CTE: taggings grouped by postId with the names
collected into an array.  A post with no taggings has no row here. -/
def tagArrays (db : DB) : List (Int × List String) :=
  ((db.taggings.map (fun t => t.postId)).dedup).map (fun pid => (pid, tagNamesOf db pid))

/-- The row shape shared by the catalog, paged catalog, per-user catalog
and single-post selects. -/
structure CatalogRow where
  title : String
  description : String
  username : String
  fileObjectKey : String
  previewImagePath : String
  filePropsName : Option String
  filePropsSound : Option Int
  filePropsLayerCount : Option Int
  postId : Int
  userId : Int
  createdAt : Int
  tags : List String
  deriving DecidableEq

/-- The from/join clause shared by all catalog-shaped selects: posts (the
given sublist) inner-joined with files on fileId, users on userId and
tag_arrays on postId.  The joins are inner, exactly as in the SQL. -/
def joinedRowsFor (db : DB) (ps : List PostRow) : List CatalogRow :=
  ps.flatMap (fun p =>
    (db.files.filter (fun f => decide (f.fileId = p.fileId))).flatMap (fun f =>
      (db.users.filter (fun u => decide (u.userId = p.userId))).flatMap (fun u =>
        ((tagArrays db).filter (fun ta => decide (ta.1 = p.postId))).map (fun ta =>
          CatalogRow.mk p.title p.description u.username f.fileObjectKey
            f.previewImagePath f.filePropsName f.filePropsSound
            f.filePropsLayerCount p.postId p.userId p.createdAt ta.2))))

/-- The GET /api/catalog select: all joined rows, newest first. -/
def catalogRows (db : DB) : List CatalogRow :=
  sortedByDesc (fun r => r.createdAt) (joinedRowsFor db db.posts)

/-- The GET /api/catalog/:offset select: joined rows ordered by createdAt
ascending, limit 20 at the given offset. -/
def catalogPage (db : DB) (off : Nat) : List CatalogRow :=
  ((sortedByAsc (fun r => r.createdAt) (joinedRowsFor db db.posts)).drop off).take 20

/-- The GET /api/posts/view/:id select: the joined rows for one postId. -/
def viewRows (db : DB) (pid : Int) : List CatalogRow :=
  joinedRowsFor db (db.posts.filter (fun p => decide (p.postId = pid)))

/-- Error message of the id guards. -/
def invalidIdMsg : String := "please provide a valid post ID (number)"

/-- Error message of the id bounds guards. -/
def outOfBoundsMsg : String := "integer out of bounds"

/-- The GET /api/catalog handler: no validation, one query. -/
def catalogHandler (db : DB) : Resp (List CatalogRow) :=
  Resp.mk true (Outcome.json (catalogRows db))

/-- The GET /api/catalog/:offset handler: the offset parameter is passed
to the store without validation; a cast failure or negative offset makes
the statement fail and the handler has no catch, so no response is sent. -/
def catalogOffsetHandler (db : DB) (off : String) : Resp (List CatalogRow) :=
  match pgBigintCast off with
  | none => Resp.mk true Outcome.noResponse
  | some n =>
    if n < 0 then Resp.mk true Outcome.noResponse
    else Resp.mk true (Outcome.json (catalogPage db n.toNat))

/-- The GET /api/posts/view/:id handler: NaN guard, bounds guard on the
Number()-coerced value, then the single-post query with the raw id string
as the parameter; a failing int4 cast of that string fails the statement,
which the attached catch routes to the error middleware; an empty row set
raises a 404 ClientError. -/
def viewHandler (db : DB) (id : String) : Resp CatalogRow :=
  match jsToNumber id with
  | none => Resp.mk false (Outcome.clientError 400 invalidIdMsg)
  | some v =>
    if jsGeOne v && jsLeMax v then
      match pgInt4Cast id with
      | none => Resp.mk true (Outcome.clientError 500 storageFailureMsg)
      | some n =>
        match viewRows db n with
        | [] => Resp.mk true (Outcome.clientError 404
            (String.mk ("unable to find entry with id: ".data ++ id.data)))
        | r :: _ => Resp.mk true (Outcome.json r)
    else Resp.mk false (Outcome.clientError 400 outOfBoundsMsg)

/-- Rows of the GET /api/posts/download/:id select: posts joined with
files, restricted to one postId, projected to (fileObjectKey, title). -/
def downloadRows (db : DB) (pid : Int) : List (String × String) :=
  (db.posts.filter (fun p => decide (p.postId = pid))).flatMap (fun p =>
    (db.files.filter (fun f => decide (f.fileId = p.fileId))).map (fun f =>
      (f.fileObjectKey, p.title)))

/-- The GET /api/posts/download/:id handler.  The source guards the empty
result with (!reSQL.rows), but rows is an array and an array is always
truthy, so that 404 branch is dead code; destructuring the first row of an
empty result throws a TypeError inside the promise chain, which has no
catch handler, so no response is sent.  On a hit the handler asks the
storage collaborator for a time-limited URL for the object key and
redirects to it; the locator is embedded as the (objectKey, filename)
pair handed to that collaborator. -/
def downloadHandler (db : DB) (id : String) : Resp Unit :=
  match jsToNumber id with
  | none => Resp.mk false (Outcome.clientError 400 invalidIdMsg)
  | some v =>
    if jsGeOne v && jsLeMax v then
      match pgInt4Cast id with
      | none => Resp.mk true Outcome.noResponse
      | some n =>
        match downloadRows db n with
        | [] => Resp.mk true Outcome.noResponse
        | (k, t) :: _ =>
            Resp.mk true
              (Outcome.redirect k (String.mk (t.data ++ ".sar".data)))
    else Resp.mk false (Outcome.clientError 400 outOfBoundsMsg)

/-- Which of the four searchable columns the request enabled, derived from
the cols query parameter. -/
structure ColumnsConfig where
  title : Bool
  description : Bool
  tags : Bool
  username : Bool
  deriving DecidableEq

/-- A tsvector weight label as used by setweight. -/
inductive TsWeight where
  | A | B | C | D
  deriving DecidableEq

/-- The default ts_rank weight of each label, represented in hundredths so
that rank arithmetic stays inside the integers (PostgreSQL documented
defaults: D 0.1, C 0.2, B 0.4, A 1.0 become 10, 20, 40, 100; the
documented inclusion threshold 0.01 becomes 1 on this scale).  The scale
is a fixed positive factor, so every comparison the handlers make is
unchanged. -/
def weightVal : TsWeight → Int
  | TsWeight.A => 100
  | TsWeight.B => 40
  | TsWeight.C => 20
  | TsWeight.D => 10

/-- The documented rank-inclusion threshold 0.01, on the same hundredths
scale as weightVal. -/
def rankThreshold : Int := 1

/-- Tokenize a text into lexemes: lowercase, split on whitespace, drop
empty tokens.  This is the shared abstraction of to_tsvector and
plainto_tsquery at the granularity the handlers rely on. -/
def lexemes (s : String) : List String :=
  ((splitOnPred Char.isWhitespace (s.data.map Char.toLower)).filter
    (fun t => !t.isEmpty)).map String.mk

/-- setweight(to_tsvector(s), w): every lexeme of s labelled with w. -/
def setweightVector (w : TsWeight) (s : String) : List (String × TsWeight) :=
  (lexemes s).map (fun t => (t, w))

/-- plainto_tsquery: the query text tokenized to lexemes. -/
def plainToTsquery (s : String) : List String := lexemes s

/-- ts_rank, abstracted: the sum, over the query lexemes, of the weights
of all matching vector entries.  It is a function of the vector and the
query only, and it is zero exactly when no query lexeme occurs in the
vector, which is the level of detail the ranking claims depend on. -/
def tsRank (v : List (String × TsWeight)) (qts : List String) : Int :=
  (qts.map (fun t => ((v.filter (fun e => decide (e.1 = t))).map
    (fun e => weightVal e.2)).sum)).sum

/-- A row of the posts_with_tags CTE: select * from posts join users using
(userId) join tag_arrays using (postId); it carries the whole post row,
the whole user row, the tag array and the space-joined tagSearch blob. -/
structure PwtRow where
  post : PostRow
  user : UserRow
  tags : List String
  tagSearch : String
  deriving DecidableEq

/-- The posts_with_tags CTE of the search query. -/
def postsWithTags (db : DB) : List PwtRow :=
  db.posts.flatMap (fun p =>
    (db.users.filter (fun u => decide (u.userId = p.userId))).flatMap (fun u =>
      ((tagArrays db).filter (fun ta => decide (ta.1 = p.postId))).map (fun ta =>
        PwtRow.mk p u ta.2 (spaceJoin ta.2))))

/-- The weights column of the weighted_posts CTE: the concatenation of the
setweight vectors of exactly the enabled columns (the SQL string is built
by conditionally splicing one clause per enabled column, ending in the
empty vector). -/
def weights (cfg : ColumnsConfig) (r : PwtRow) : List (String × TsWeight) :=
  (if cfg.title then setweightVector TsWeight.A r.post.title else []) ++
  (if cfg.description then setweightVector TsWeight.B r.post.description else []) ++
  (if cfg.tags then setweightVector TsWeight.C r.tagSearch else []) ++
  (if cfg.username then setweightVector TsWeight.D r.user.username else [])

/-- The search_ranking CTE: every weighted row with its ts_rank against
the query. -/
def searchRanking (db : DB) (cfg : ColumnsConfig) (qts : List String) :
    List (PwtRow × Int) :=
  (postsWithTags db).map (fun r => (r, tsRank (weights cfg r) qts))

/-- A row of the final search select. -/
structure SearchRow where
  title : String
  description : String
  username : String
  fileObjectKey : String
  previewImagePath : String
  filePropsName : Option String
  filePropsSound : Option Int
  filePropsLayerCount : Option Int
  postId : Int
  userId : Int
  createdAt : Int
  tags : List String
  ranks : Int
  deriving DecidableEq

/-- The from/join clause of the final search select: search_ranking joined
back with posts on postId, files on fileId, users on userId and tag_arrays
on postId. -/
def searchJoinRows (db : DB) (cfg : ColumnsConfig) (qts : List String) :
    List SearchRow :=
  (searchRanking db cfg qts).flatMap (fun rk =>
    (db.posts.filter (fun p => decide (p.postId = rk.1.post.postId))).flatMap (fun p =>
      (db.files.filter (fun f => decide (f.fileId = p.fileId))).flatMap (fun f =>
        (db.users.filter (fun u => decide (u.userId = p.userId))).flatMap (fun u =>
          ((tagArrays db).filter (fun ta => decide (ta.1 = p.postId))).map (fun ta =>
            SearchRow.mk p.title p.description u.username f.fileObjectKey
              f.previewImagePath f.filePropsName f.filePropsSound
              f.filePropsLayerCount p.postId p.userId p.createdAt ta.2 rk.2)))))

/-- The complete search select: where ranks > 0.01, order by ranks desc,
limit 20. -/
def searchRows (db : DB) (cfg : ColumnsConfig) (qts : List String) :
    List SearchRow :=
  (sortedByDesc (fun r => r.ranks)
    ((searchJoinRows db cfg qts).filter
      (fun r => decide (rankThreshold < r.ranks)))).take 20

/-- Error message for a missing search query. -/
def noQueryMsg : String :=
  String.mk ("provide query param q with text you want to search for").data

/-- Error message for a missing or empty column selection. -/
def noColsMsg : String :=
  String.mk ("provide query param cols with columns you want to search for").data

/-- The GET /api/posts/search handler: reject a missing or empty q, a
missing or empty cols, and an all-disabled column configuration, before
querying; otherwise run the weighted search. -/
def searchHandler (db : DB) (q cols : Option String) :
    Resp (List SearchRow) :=
  match q with
  | none => Resp.mk false (Outcome.clientError 400 noQueryMsg)
  | some qs =>
    if qs = "" then Resp.mk false (Outcome.clientError 400 noQueryMsg)
    else
      match cols with
      | none => Resp.mk false (Outcome.clientError 400 noColsMsg)
      | some cs =>
        if cs = "" then Resp.mk false (Outcome.clientError 400 noColsMsg)
        else
          let arr := strSplitComma cs
          let cfg := ColumnsConfig.mk (arr.contains "title")
            (arr.contains "description") (arr.contains "tags")
            (arr.contains "username")
          if cfg.title = false ∧ cfg.description = false ∧
              cfg.tags = false ∧ cfg.username = false then
            Resp.mk false (Outcome.clientError 400 noColsMsg)
          else Resp.mk true (Outcome.json (searchRows db cfg (plainToTsquery qs)))

/-- The insert into tags ... on conflict (tagName) do nothing: each name
is appended unless it is already present, which also collapses duplicates
arriving within the same statement. -/
def upsertTags (tbl : List String) (names : List String) : List String :=
  names.foldl (fun acc n => if n ∈ acc then acc else acc ++ [n]) tbl

/-- Input of the POST /api/upload handler: the storage keys produced by
the upload middleware, the multipart body fields, and the acting-user
capability resolved by the auth middleware (none when anonymous).  The
title field is optional because a missing body field is bound as SQL
null. -/
structure UploadInput where
  sarKey : String
  thumbnailLocation : String
  filePropsSound : Option Int
  filePropsLayerCount : Option Int
  filePropsName : Option String
  authUserId : Option Int
  title : Option String
  description : Option String
  rawTags : String
  deriving DecidableEq

/-- The single SQL statement of the upload handler (new_file, new_post,
upsert_tags, add_taggings CTEs and the final select), as a state
transformer that threads the intermediate table states and stops at the
first violated constraint.  Checked constraints: posts.title not null,
posts.userId foreign key, taggings.tagName foreign key. -/
def uploadTx (db : DB) (inp : UploadInput) :
    Except String (DB × List (PostRow × FileRow)) :=
  let uid := inp.authUserId.getD 1
  let tags := (strSplitComma inp.rawTags).map strTrim
  let fid := db.fileSeq + 1
  let f : FileRow := FileRow.mk fid inp.sarKey inp.thumbnailLocation
    inp.filePropsName inp.filePropsSound inp.filePropsLayerCount
  let db1 : DB := { db with files := db.files ++ [f], fileSeq := fid }
  match inp.title with
  | none => Except.error "null value in column title violates not-null constraint"
  | some t =>
    if db1.users.any (fun u => decide (u.userId = uid)) then
      let pid := db1.postSeq + 1
      let p : PostRow := PostRow.mk pid fid uid db1.clock t (inp.description.getD "")
      let db2 : DB := { db1 with posts := db1.posts ++ [p], postSeq := pid }
      let db3 : DB := { db2 with tags := upsertTags db2.tags tags }
      let newTaggings := tags.map (fun n => TaggingRow.mk n pid)
      if newTaggings.all (fun tg => decide (tg.tagName ∈ db3.tags)) then
        Except.ok ({ db3 with taggings := db3.taggings ++ newTaggings }, [(p, f)])
      else Except.error "insert into taggings violates foreign key tagName"
    else Except.error "insert into posts violates foreign key userId"

/-- The POST /api/upload handler: a single db.query call carries the whole
write, so the store applies it atomically; the promise chain has no catch
handler, so a failed statement leaves the request without a response. -/
def uploadHandler (db : DB) (inp : UploadInput) :
    DB × Resp (List (PostRow × FileRow)) :=
  match uploadTx db inp with
  | Except.ok (db', rows) => (db', Resp.mk true (Outcome.json rows))
  | Except.error _ => (db, Resp.mk true Outcome.noResponse)

/-- Body of the PUT /api/posts/edit/:id request. -/
structure EditBody where
  title : Option String
  description : Option String
  tags : List String
  deriving DecidableEq

/-- A row of the final select of the edit statement.  Because every CTE of
a statement sees the same snapshot, the select reads the pre-update title
and description from posts, while the tags column comes from the
add_taggings CTE (null when no tagging was inserted, since the aggregate
has no group by and always yields one row). -/
structure EditRow where
  title : String
  description : String
  username : String
  fileObjectKey : String
  previewImagePath : String
  filePropsName : Option String
  filePropsSound : Option Int
  filePropsLayerCount : Option Int
  postId : Int
  userId : Int
  createdAt : Int
  tags : Option (List String)
  deriving DecidableEq

/-- The single SQL statement of the edit handler (update_post,
delete_taggings, upsert_tags, add_taggings, tag_arrays CTEs and the final
select).  Checked constraints: posts.title not null when a row is
actually updated, taggings.postId foreign key when a tagging is actually
inserted, taggings.tagName foreign key. -/
def editTx (db : DB) (pid : Int) (body : EditBody) :
    Except String (DB × List EditRow) :=
  let d := body.description.getD ""
  let tags := body.tags.map strTrim
  if (db.posts.any (fun p => decide (p.postId = pid))) ∧ body.title = none then
    Except.error "null value in column title violates not-null constraint"
  else
    let posts' := db.posts.map (fun p =>
      if p.postId = pid then
        { p with title := body.title.getD p.title, description := d }
      else p)
    let taggings1 := db.taggings.filter (fun t => !(decide (t.postId = pid)))
    let tags' := upsertTags db.tags tags
    let newTaggings := tags.map (fun n => TaggingRow.mk n pid)
    if newTaggings = [] ∨ db.posts.any (fun p => decide (p.postId = pid)) then
      if newTaggings.all (fun tg => decide (tg.tagName ∈ tags')) then
        let db' : DB :=
          { db with
            posts := posts'
            taggings := taggings1 ++ newTaggings
            tags := tags' }
        let tagsOut : Option (List String) :=
          if newTaggings = [] then none else some tags
        let rows := (db.posts.filter (fun p => decide (p.postId = pid))).flatMap
          (fun p => (db.files.filter (fun f => decide (f.fileId = p.fileId))).flatMap
            (fun f => (db.users.filter (fun u => decide (u.userId = p.userId))).map
              (fun u => EditRow.mk p.title p.description u.username
                f.fileObjectKey f.previewImagePath f.filePropsName
                f.filePropsSound f.filePropsLayerCount p.postId p.userId
                p.createdAt tagsOut)))
        Except.ok (db', rows)
      else Except.error "insert into taggings violates foreign key tagName"
    else Except.error "insert into taggings violates foreign key postId"

/-- The PUT /api/posts/edit/:id handler: no validation of the id parameter
at all, so the statement is always sent to the store; a cast failure or a
constraint violation rejects the promise, and with no catch handler no
response is sent. -/
def editHandler (db : DB) (id : String) (body : EditBody) :
    DB × Resp (List EditRow) :=
  match pgInt4Cast id with
  | none => (db, Resp.mk true Outcome.noResponse)
  | some pid =>
    match editTx db pid body with
    | Except.ok (db', rows) => (db', Resp.mk true (Outcome.json rows))
    | Except.error _ => (db, Resp.mk true Outcome.noResponse)

/-- Concrete user row used by the concrete store states below. -/
def cUser1 : UserRow := UserRow.mk 1 "admin" "h" 0

/-- Concrete file row. -/
def cFile1 : FileRow := FileRow.mk 1 "k1" "p1" none none none

/-- Concrete post row, with a description that mentions drake. -/
def cPost1 : PostRow := PostRow.mk 1 1 1 5 "Lobby Grinding" "Drake Meme but epic"

/-- The same post with its description replaced, for comparing two search
runs that differ only in a disabled column. -/
def cPost1b : PostRow := PostRow.mk 1 1 1 5 "Lobby Grinding" "x"

/-- Concrete tagging row. -/
def cTagging1 : TaggingRow := TaggingRow.mk "meme" 1

/-- A store with one user and nothing else. -/
def cDbUsersOnly : DB := DB.mk [] [] [cUser1] [] [] 0 0 7

/-- The empty store: the anonymous fallback user 1 does not exist, so an
anonymous upload violates the posts.userId foreign key. -/
def cDbEmpty : DB := DB.mk [] [] [] [] [] 0 0 7

/-- A store holding one post that has a file and a user but no tagging. -/
def cDbNoTag : DB := DB.mk [cFile1] [cPost1] [cUser1] [] [] 1 1 7

/-- A store holding one fully joined post with one tagging. -/
def cDbTagged : DB := DB.mk [cFile1] [cPost1] [cUser1] ["meme"] [cTagging1] 1 1 7

/-- cDbTagged with only the post description changed. -/
def cDbTagged2 : DB := DB.mk [cFile1] [cPost1b] [cUser1] ["meme"] [cTagging1] 1 1 7

/-- The title-only column configuration (cols=title). -/
def cCfgTitle : ColumnsConfig := ColumnsConfig.mk true false false false

/-- A well-formed upload input carrying the tag list of the tag-normalizer
example. -/
def cUploadA : UploadInput :=
  UploadInput.mk "k" "t" none none none none (some "T") none "pso2, pso2 , meme,  "

/-- An edit body with an empty tag list. -/
def cEditNoTags : EditBody := EditBody.mk (some "x") none []

/-- An edit body with two tags. -/
def cEditTwoTags : EditBody := EditBody.mk (some "x") none ["b", "c"]

/-- The store state after the A upload on the one-user store. -/
def cDbAfterUploadA : DB :=
  match uploadTx cDbUsersOnly cUploadA with
  | Except.ok (d, _) => d
  | Except.error _ => cDbUsersOnly

/-- The response rows of the A upload on the one-user store. -/
def cUploadRowsA : List (PostRow × FileRow) :=
  match uploadTx cDbUsersOnly cUploadA with
  | Except.ok (_, r) => r
  | Except.error _ => []

/-- The store state after editing post 1 of the tagged store with two
tags. -/
def cDbAfterEditB : DB :=
  match editTx cDbTagged 1 cEditTwoTags with
  | Except.ok (d, _) => d
  | Except.error _ => cDbTagged

/-- The response rows of that edit. -/
def cEditRowsB : List EditRow :=
  match editTx cDbTagged 1 cEditTwoTags with
  | Except.ok (_, r) => r
  | Except.error _ => []

/-- Two post rows agree on everything the search pipeline inspects except
possibly the columns that are disabled in the configuration. -/
def PostAgree (cfg : ColumnsConfig) (p q : PostRow) : Prop :=
  p.postId = q.postId ∧ p.fileId = q.fileId ∧ p.userId = q.userId ∧
  (cfg.title = true → p.title = q.title) ∧
  (cfg.description = true → p.description = q.description)

/-- Two user rows agree up to the possibly disabled username column. -/
def UserAgree (cfg : ColumnsConfig) (u v : UserRow) : Prop :=
  u.userId = v.userId ∧ (cfg.username = true → u.username = v.username)

/-- Two tagging rows agree up to the tag name when tags are disabled. -/
def TaggingAgree (cfg : ColumnsConfig) (s t : TaggingRow) : Prop :=
  s.postId = t.postId ∧ (cfg.tags = true → s.tagName = t.tagName)

/-- Two file rows agree on the join key; no file column is searchable. -/
def FileAgree (f g : FileRow) : Prop := f.fileId = g.fileId

/-- Two store states whose contents differ only in columns outside the
enabled search subset (and in columns the search output projection under
consideration never reads). -/
def SearchAgree (cfg : ColumnsConfig) (db1 db2 : DB) : Prop :=
  List.Forall₂ (PostAgree cfg) db1.posts db2.posts ∧
  List.Forall₂ (UserAgree cfg) db1.users db2.users ∧
  List.Forall₂ (TaggingAgree cfg) db1.taggings db2.taggings ∧
  List.Forall₂ FileAgree db1.files db2.files

/-- Agreement between tag_arrays rows. -/
def TagArrAgree (cfg : ColumnsConfig) (x y : Int × List String) : Prop :=
  x.1 = y.1 ∧ (cfg.tags = true → x.2 = y.2)

/-- Agreement between posts_with_tags rows. -/
def PwtAgree (cfg : ColumnsConfig) (r s : PwtRow) : Prop :=
  PostAgree cfg r.post s.post ∧ UserAgree cfg r.user s.user ∧
  (cfg.tags = true → r.tagSearch = s.tagSearch)

theorem mem_insSortedDesc {α β : Type} [LinearOrder β] (f : α → β) (x a : α)
    (l : List α) : a ∈ insSortedDesc f x l ↔ a = x ∨ a ∈ l := by
  induction l with
  | nil => simp [insSortedDesc]
  | cons y ys ih =>
    simp only [insSortedDesc]
    by_cases h : f x ≤ f y
    · rw [if_pos h]
      simp only [List.mem_cons, ih]
      tauto
    · rw [if_neg h]
      simp only [List.mem_cons]

theorem pairwise_insSortedDesc {α β : Type} [LinearOrder β] (f : α → β) (x : α)
    (l : List α) (hl : l.Pairwise (fun a b => f b ≤ f a)) :
    (insSortedDesc f x l).Pairwise (fun a b => f b ≤ f a) := by
  induction l with
  | nil => simp [insSortedDesc]
  | cons y ys ih =>
    rcases List.pairwise_cons.mp hl with ⟨hy, hys⟩
    simp only [insSortedDesc]
    by_cases h : f x ≤ f y
    · rw [if_pos h]
      refine List.pairwise_cons.mpr ⟨?_, ih hys⟩
      intro b hb
      rcases (mem_insSortedDesc f x b ys).mp hb with rfl | hmem
      · exact h
      · exact hy b hmem
    · rw [if_neg h]
      refine List.pairwise_cons.mpr ⟨?_, hl⟩
      intro b hb
      rcases List.mem_cons.mp hb with rfl | hb
      · exact le_of_lt (lt_of_not_le h)
      · exact le_trans (hy b hb) (le_of_lt (lt_of_not_le h))

theorem pairwise_sortedByDesc {α β : Type} [LinearOrder β] (f : α → β)
    (l : List α) : (sortedByDesc f l).Pairwise (fun a b => f b ≤ f a) := by
  induction l with
  | nil => simp [sortedByDesc]
  | cons x xs ih => exact pairwise_insSortedDesc f x _ ih

theorem mem_sortedByDesc {α β : Type} [LinearOrder β] (f : α → β) (a : α)
    (l : List α) : a ∈ sortedByDesc f l ↔ a ∈ l := by
  induction l with
  | nil => simp [sortedByDesc]
  | cons x xs ih =>
    simp only [sortedByDesc, mem_insSortedDesc, ih, List.mem_cons]

theorem forall2_flatMap {α β γ δ : Type} {R : α → β → Prop} {S : γ → δ → Prop}
    {f : α → List γ} {g : β → List δ} {l₁ : List α} {l₂ : List β}
    (h : List.Forall₂ R l₁ l₂)
    (hfg : ∀ a b, R a b → List.Forall₂ S (f a) (g b)) :
    List.Forall₂ S (l₁.flatMap f) (l₂.flatMap g) := by
  induction h with
  | nil => simp [List.flatMap]
  | @cons a b t₁ t₂ hab _ ih =>
    simpa using List.rel_append (hfg a b hab) ih

theorem forall2_filter {α β : Type} {R : α → β → Prop} {p : α → Bool}
    {q : β → Bool} {l₁ : List α} {l₂ : List β} (h : List.Forall₂ R l₁ l₂)
    (hpq : ∀ a b, R a b → p a = q b) :
    List.Forall₂ R (l₁.filter p) (l₂.filter q) := by
  induction h with
  | nil => simp
  | @cons a b t₁ t₂ hab _ ih =>
    have hqb : q b = p a := (hpq a b hab).symm
    by_cases hpa : p a
    · simpa [List.filter_cons, hpa, hqb] using List.Forall₂.cons hab ih
    · simpa [List.filter_cons, hqb, Bool.eq_false_iff.mpr hpa] using ih

theorem forall2_map_eq {α β γ : Type} {R : α → β → Prop} {h₁ : α → γ}
    {h₂ : β → γ} {l₁ : List α} {l₂ : List β} (h : List.Forall₂ R l₁ l₂)
    (hh : ∀ a b, R a b → h₁ a = h₂ b) : l₁.map h₁ = l₂.map h₂ := by
  induction h with
  | nil => rfl
  | @cons a b t₁ t₂ hab _ ih => simp only [List.map_cons, hh a b hab, ih]

theorem forall2_map_rel {α β γ δ : Type} {R : α → β → Prop} {S : γ → δ → Prop}
    {h₁ : α → γ} {h₂ : β → δ} {l₁ : List α} {l₂ : List β}
    (h : List.Forall₂ R l₁ l₂) (hh : ∀ a b, R a b → S (h₁ a) (h₂ b)) :
    List.Forall₂ S (l₁.map h₁) (l₂.map h₂) := by
  induction h with
  | nil => simp
  | @cons a b t₁ t₂ hab _ ih =>
    exact List.Forall₂.cons (hh a b hab) ih

theorem forall2_map_same {α γ δ : Type} {S : γ → δ → Prop} {f : α → γ}
    {g : α → δ} (l : List α) (h : ∀ a ∈ l, S (f a) (g a)) :
    List.Forall₂ S (l.map f) (l.map g) := by
  induction l with
  | nil => simp
  | cons a t ih =>
    exact List.Forall₂.cons (h a (List.mem_cons_self a t))
      (ih (fun x hx => h x (List.mem_cons_of_mem a hx)))

theorem forall2_insSortedDesc {α β γ : Type} [LinearOrder γ]
    {R : α → β → Prop} {f : α → γ} {g : β → γ}
    (hfg : ∀ a b, R a b → f a = g b) {l₁ : List α} {l₂ : List β}
    (h : List.Forall₂ R l₁ l₂) :
    ∀ {x : α} {y : β}, R x y →
      List.Forall₂ R (insSortedDesc f x l₁) (insSortedDesc g y l₂) := by
  induction h with
  | nil =>
    intro x y hxy
    exact List.Forall₂.cons hxy List.Forall₂.nil
  | @cons a b t₁ t₂ hab htl ih =>
    intro x y hxy
    simp only [insSortedDesc]
    have hkey : (f x ≤ f a) = (g y ≤ g b) := by
      rw [hfg x y hxy, hfg a b hab]
    by_cases hc : f x ≤ f a
    · rw [if_pos hc, if_pos (hkey ▸ hc)]
      exact List.Forall₂.cons hab (ih hxy)
    · rw [if_neg hc, if_neg (hkey ▸ hc)]
      exact List.Forall₂.cons hxy (List.Forall₂.cons hab htl)

theorem forall2_sortedByDesc {α β γ : Type} [LinearOrder γ]
    {R : α → β → Prop} {f : α → γ} {g : β → γ}
    (hfg : ∀ a b, R a b → f a = g b) {l₁ : List α} {l₂ : List β}
    (h : List.Forall₂ R l₁ l₂) :
    List.Forall₂ R (sortedByDesc f l₁) (sortedByDesc g l₂) := by
  induction h with
  | nil => exact List.Forall₂.nil
  | @cons a b t₁ t₂ hab _ ih =>
    exact forall2_insSortedDesc hfg ih hab

theorem upsertTags_cons (tbl : List String) (m : String) (ms : List String) :
    upsertTags tbl (m :: ms) =
      upsertTags (if m ∈ tbl then tbl else tbl ++ [m]) ms := rfl

theorem mem_upsertTags (tbl names : List String) (n : String) :
    n ∈ upsertTags tbl names ↔ n ∈ tbl ∨ n ∈ names := by
  induction names generalizing tbl with
  | nil => simp [upsertTags]
  | cons m ms ih =>
    rw [upsertTags_cons]
    by_cases hm : m ∈ tbl
    · rw [if_pos hm, ih]
      constructor
      · rintro (h | h)
        · exact Or.inl h
        · exact Or.inr (List.mem_cons_of_mem m h)
      · rintro (h | h)
        · exact Or.inl h
        · rcases List.mem_cons.mp h with rfl | h
          · exact Or.inl hm
          · exact Or.inr h
    · rw [if_neg hm, ih]
      simp only [List.mem_append, List.mem_singleton, List.mem_cons]
      tauto

theorem nodup_upsertTags (tbl names : List String) (h : tbl.Nodup) :
    (upsertTags tbl names).Nodup := by
  induction names generalizing tbl with
  | nil => exact h
  | cons m ms ih =>
    rw [upsertTags_cons]
    by_cases hm : m ∈ tbl
    · rw [if_pos hm]
      exact ih tbl h
    · rw [if_neg hm]
      refine ih _ (List.nodup_append.mpr ⟨h, List.nodup_singleton m, ?_⟩)
      intro a ha hma
      rcases List.mem_singleton.mp hma with rfl
      exact hm ha

theorem upsertTags_eq_of_subset (tbl names : List String)
    (h : ∀ n ∈ names, n ∈ tbl) : upsertTags tbl names = tbl := by
  induction names with
  | nil => rfl
  | cons m ms ih =>
    rw [upsertTags_cons, if_pos (h m (List.mem_cons_self m ms))]
    exact ih (fun n hn => h n (List.mem_cons_of_mem m hn))

theorem mem_insSortedAsc {α β : Type} [LinearOrder β] (f : α → β) (x a : α)
    (l : List α) : a ∈ insSortedAsc f x l ↔ a = x ∨ a ∈ l := by
  induction l with
  | nil => simp [insSortedAsc]
  | cons y ys ih =>
    simp only [insSortedAsc]
    by_cases h : f y ≤ f x
    · rw [if_pos h]
      simp only [List.mem_cons, ih]
      tauto
    · rw [if_neg h]
      simp only [List.mem_cons]

theorem mem_sortedByAsc {α β : Type} [LinearOrder β] (f : α → β) (a : α)
    (l : List α) : a ∈ sortedByAsc f l ↔ a ∈ l := by
  induction l with
  | nil => simp [sortedByAsc]
  | cons x xs ih =>
    simp only [sortedByAsc, mem_insSortedAsc, ih, List.mem_cons]

theorem mem_joinedRowsFor (db : DB) (ps : List PostRow) (r : CatalogRow)
    (h : r ∈ joinedRowsFor db ps) :
    ∃ p ∈ ps, r.postId = p.postId ∧
      ∃ tg ∈ db.taggings, tg.postId = p.postId := by
  unfold joinedRowsFor at h
  rcases List.mem_flatMap.mp h with ⟨p, hp, h⟩
  rcases List.mem_flatMap.mp h with ⟨f, _, h⟩
  rcases List.mem_flatMap.mp h with ⟨u, _, h⟩
  rcases List.mem_map.mp h with ⟨ta, hta, rfl⟩
  rcases List.mem_filter.mp hta with ⟨htaA, htaEq⟩
  refine ⟨p, hp, rfl, ?_⟩
  unfold tagArrays at htaA
  rcases List.mem_map.mp htaA with ⟨pid, hpid, rfl⟩
  rw [List.mem_dedup] at hpid
  rcases List.mem_map.mp hpid with ⟨tg, htg, rfl⟩
  exact ⟨tg, htg, of_decide_eq_true htaEq⟩

theorem joinedRowsFor_intro (db : DB) (ps : List PostRow) (p : PostRow)
    (f : FileRow) (u : UserRow) (tg : TaggingRow) (hp : p ∈ ps)
    (hf : f ∈ db.files) (hfid : f.fileId = p.fileId) (hu : u ∈ db.users)
    (huid : u.userId = p.userId) (htg : tg ∈ db.taggings)
    (htgid : tg.postId = p.postId) :
    CatalogRow.mk p.title p.description u.username f.fileObjectKey
      f.previewImagePath f.filePropsName f.filePropsSound
      f.filePropsLayerCount p.postId p.userId p.createdAt
      (tagNamesOf db p.postId) ∈ joinedRowsFor db ps := by
  unfold joinedRowsFor
  refine List.mem_flatMap.mpr ⟨p, hp, ?_⟩
  refine List.mem_flatMap.mpr
    ⟨f, List.mem_filter.mpr ⟨hf, decide_eq_true hfid⟩, ?_⟩
  refine List.mem_flatMap.mpr
    ⟨u, List.mem_filter.mpr ⟨hu, decide_eq_true huid⟩, ?_⟩
  refine List.mem_map.mpr ⟨(p.postId, tagNamesOf db p.postId), ?_, rfl⟩
  refine List.mem_filter.mpr ⟨?_, decide_eq_true rfl⟩
  unfold tagArrays
  refine List.mem_map.mpr ⟨p.postId, ?_, rfl⟩
  rw [List.mem_dedup]
  exact List.mem_map.mpr ⟨tg, htg, htgid⟩

theorem mem_window_of_mem {α : Type} (a : α) (l : List α) (h : a ∈ l) :
    ∃ n : Nat, a ∈ (l.drop n).take 20 := by
  rcases List.mem_iff_getElem.mp h with ⟨i, hi, hget⟩
  refine ⟨i, ?_⟩
  rw [List.drop_eq_getElem_cons hi, hget]
  exact List.mem_cons_self a _

theorem tsRank_eq_zero (v : List (String × TsWeight)) (qts : List String)
    (h : ∀ t ∈ qts, ∀ e ∈ v, e.1 ≠ t) : tsRank v qts = 0 := by
  unfold tsRank
  refine List.sum_eq_zero ?_
  intro x hx
  rcases List.mem_map.mp hx with ⟨t, ht, rfl⟩
  have : v.filter (fun e => decide (e.1 = t)) = [] := by
    refine List.filter_eq_nil_iff.mpr ?_
    intro e he
    simp only [decide_eq_true_eq]
    exact h t ht e he
  rw [this]
  rfl

theorem uploadTx_ok_state (db : DB) (inp : UploadInput) (db' : DB)
    (rows : List (PostRow × FileRow))
    (h : uploadTx db inp = Except.ok (db', rows)) :
    ∃ t, inp.title = some t ∧
    db'.files = db.files ++ [FileRow.mk (db.fileSeq + 1) inp.sarKey
      inp.thumbnailLocation inp.filePropsName inp.filePropsSound
      inp.filePropsLayerCount] ∧
    db'.posts = db.posts ++ [PostRow.mk (db.postSeq + 1) (db.fileSeq + 1)
      (inp.authUserId.getD 1) db.clock t (inp.description.getD "")] ∧
    db'.users = db.users ∧
    db'.tags = upsertTags db.tags ((strSplitComma inp.rawTags).map strTrim) ∧
    db'.taggings = db.taggings ++
      ((strSplitComma inp.rawTags).map strTrim).map
        (fun n => TaggingRow.mk n (db.postSeq + 1)) := by
  unfold uploadTx at h
  cases htitle : inp.title with
  | none => rw [htitle] at h; exact absurd h (by simp)
  | some t =>
    rw [htitle] at h
    dsimp only at h
    by_cases huser : (List.any db.users fun u => decide (u.userId = inp.authUserId.getD 1)) = true
    · rw [if_pos huser] at h
      by_cases hfk : (List.all
          (((strSplitComma inp.rawTags).map strTrim).map
            (fun n => TaggingRow.mk n (db.postSeq + 1)))
          (fun tg => decide (tg.tagName ∈
            upsertTags db.tags ((strSplitComma inp.rawTags).map strTrim)))) = true
      · rw [if_pos hfk] at h
        refine ⟨t, rfl, ?_⟩
        cases h
        exact ⟨rfl, rfl, rfl, rfl, rfl⟩
      · rw [if_neg hfk] at h
        exact absurd h (by simp)
    · rw [if_neg huser] at h
      exact absurd h (by simp)

theorem editTx_ok_state (db : DB) (pid : Int) (body : EditBody) (db' : DB)
    (rows : List EditRow) (h : editTx db pid body = Except.ok (db', rows)) :
    db'.posts = db.posts.map (fun p =>
      if p.postId = pid then
        { p with title := body.title.getD p.title,
                 description := body.description.getD "" }
      else p) ∧
    db'.tags = upsertTags db.tags (body.tags.map strTrim) ∧
    db'.taggings = db.taggings.filter (fun t => !(decide (t.postId = pid))) ++
      (body.tags.map strTrim).map (fun n => TaggingRow.mk n pid) ∧
    db'.files = db.files ∧ db'.users = db.users := by
  unfold editTx at h
  dsimp only at h
  by_cases h1 : (db.posts.any (fun p => decide (p.postId = pid))) ∧ body.title = none
  · rw [if_pos h1] at h
    exact absurd h (by simp)
  · rw [if_neg h1] at h
    by_cases h2 : (body.tags.map strTrim).map (fun n => TaggingRow.mk n pid) = [] ∨
        (List.any db.posts fun p => decide (p.postId = pid)) = true
    · rw [if_pos h2] at h
      by_cases h3 : (List.all ((body.tags.map strTrim).map (fun n => TaggingRow.mk n pid))
          (fun tg => decide (tg.tagName ∈ upsertTags db.tags (body.tags.map strTrim)))) = true
      · rw [if_pos h3] at h
        cases h
        exact ⟨rfl, rfl, rfl, rfl, rfl⟩
      · rw [if_neg h3] at h
        exact absurd h (by simp)
    · rw [if_neg h2] at h
      exact absurd h (by simp)

/-- C1: the create-post write transaction is all-or-nothing.  The whole
write travels in one SQL statement, so whenever any of its steps fails
(observable as the handler producing no response, because the rejection is
unhandled), the store state after the request equals the state before
it. -/
theorem claim_c1_upload_all_or_nothing (db : DB) (inp : UploadInput)
    (h : (uploadHandler db inp).2.outcome = Outcome.noResponse) :
    (uploadHandler db inp).1 = db := by
  unfold uploadHandler at h ⊢
  cases htx : uploadTx db inp with
  | ok v =>
    obtain ⟨db', rows⟩ := v
    rw [htx] at h
    exact absurd h (by simp)
  | error e => rfl

/-- Witness for C1: an anonymous upload into the empty store violates the
posts.userId foreign key (the fallback user 1 does not exist), the
statement fails, and the store is unchanged. -/
theorem claim_c1_witness :
    (uploadHandler cDbEmpty cUploadA).2.outcome = Outcome.noResponse ∧
    (uploadHandler cDbEmpty cUploadA).1 = cDbEmpty :=
  ⟨by decide, claim_c1_upload_all_or_nothing cDbEmpty cUploadA (by decide)⟩

/-- Counterexample for C3: for the input of the claim, the tag sequence
actually associated with the new post keeps the duplicate and the token
that trims to the empty string; it is not the deduplicated
["pso2", "meme"]. -/
theorem claim_c3_counterexample :
    tagNamesOf (uploadHandler cDbUsersOnly cUploadA).1 1 =
      ["pso2", "pso2", "meme", ""] ∧
    ¬ tagNamesOf (uploadHandler cDbUsersOnly cUploadA).1 1 =
      ["pso2", "meme"] := by decide

/-- Counterexample for C6: editing a post identity that matches no post,
with an empty tag list, reports success with an empty row set instead of
signalling not-found. -/
theorem claim_c6_counterexample :
    cDbNoTag.posts.all (fun p => !(decide (p.postId = 5))) = true ∧
    (editHandler cDbNoTag "5" cEditNoTags).2.outcome = Outcome.json [] := by
  decide

/-- C8 (code bug): a download request for a well-formed post identity that
matches no post does not signal not-found: the empty-result guard
(!reSQL.rows) is always false because an array is truthy, so the dead 404
branch is skipped, destructuring the empty row set throws, and no response
is sent; the store was queried. -/
theorem claim_c8_download_missing_post_no_404 :
    (downloadHandler cDbTagged "999").storeQueried = true ∧
    (downloadHandler cDbTagged "999").outcome = Outcome.noResponse := by
  decide

/-- C3 (amended): the tag sequence associated with a post by a successful
create or edit is the input tokens trimmed, in order, with duplicates and
empty tokens retained (no deduplication, no filtering): on create it is
rawTags split on commas and trimmed, on edit the request array trimmed. -/
theorem claim_c3_tags_trimmed_only :
    (∀ (db : DB) (inp : UploadInput) (db' : DB) (rows : List (PostRow × FileRow)),
      uploadTx db inp = Except.ok (db', rows) →
      (∀ tg ∈ db.taggings, tg.postId ≠ db.postSeq + 1) →
      tagNamesOf db' (db.postSeq + 1) = (strSplitComma inp.rawTags).map strTrim) ∧
    (∀ (db : DB) (pid : Int) (body : EditBody) (db' : DB) (rows : List EditRow),
      editTx db pid body = Except.ok (db', rows) →
      tagNamesOf db' pid = body.tags.map strTrim) := by
  constructor
  · intro db inp db' rows h hfresh
    obtain ⟨t, _, _, _, _, _, htg⟩ := uploadTx_ok_state db inp db' rows h
    unfold tagNamesOf
    rw [htg, List.filter_append]
    have h1 : db.taggings.filter
        (fun tg => decide (tg.postId = db.postSeq + 1)) = [] := by
      refine List.filter_eq_nil_iff.mpr ?_
      intro tg htg'
      simp only [decide_eq_true_eq]
      exact hfresh tg htg'
    have h2 : (((strSplitComma inp.rawTags).map strTrim).map
        (fun n => TaggingRow.mk n (db.postSeq + 1))).filter
        (fun tg => decide (tg.postId = db.postSeq + 1)) =
        ((strSplitComma inp.rawTags).map strTrim).map
          (fun n => TaggingRow.mk n (db.postSeq + 1)) := by
      refine List.filter_eq_self.mpr ?_
      intro tg htg'
      rcases List.mem_map.mp htg' with ⟨n, _, rfl⟩
      simp
    rw [h1, h2, List.nil_append, List.map_map]
    simp [Function.comp]
  · intro db pid body db' rows h
    obtain ⟨_, _, htg, _, _⟩ := editTx_ok_state db pid body db' rows h
    unfold tagNamesOf
    rw [htg, List.filter_append]
    have h1 : ((db.taggings.filter (fun t => !(decide (t.postId = pid)))).filter
        (fun t => decide (t.postId = pid))) = [] := by
      refine List.filter_eq_nil_iff.mpr ?_
      intro tg htg'
      rcases List.mem_filter.mp htg' with ⟨_, hneg⟩
      simp only [Bool.not_eq_true', decide_eq_false_iff_not] at hneg
      simp only [decide_eq_true_eq]
      exact hneg
    have h2 : ((body.tags.map strTrim).map (fun n => TaggingRow.mk n pid)).filter
        (fun t => decide (t.postId = pid)) =
        (body.tags.map strTrim).map (fun n => TaggingRow.mk n pid) := by
      refine List.filter_eq_self.mpr ?_
      intro tg htg'
      rcases List.mem_map.mp htg' with ⟨n, _, rfl⟩
      simp
    rw [h1, h2, List.nil_append, List.map_map]
    simp [Function.comp]

/-- Witness for the amended C3: the create of the example input leaves the
trimmed-but-unnormalized token list associated with the new post, and an
edit with two tags leaves exactly those two tags. -/
theorem claim_c3_witness :
    tagNamesOf cDbAfterUploadA (cDbUsersOnly.postSeq + 1) =
      (strSplitComma cUploadA.rawTags).map strTrim ∧
    tagNamesOf cDbAfterEditB 1 = cEditTwoTags.tags.map strTrim :=
  ⟨claim_c3_tags_trimmed_only.1 cDbUsersOnly cUploadA cDbAfterUploadA
      cUploadRowsA (by rfl) (by decide),
   claim_c3_tags_trimmed_only.2 cDbTagged 1 cEditTwoTags cDbAfterEditB
      cEditRowsB (by rfl)⟩

/-- C6 (amended): an edit whose identity matches no post never signals
not-found: with an empty tag list the statement succeeds and the handler
reports success with an empty row set; with a non-empty tag list the
taggings insert violates the postId foreign key, the statement fails, and
no response is sent. -/
theorem claim_c6_edit_missing_post (db : DB) (id : String) (pid : Int)
    (body : EditBody) (hpid : pgInt4Cast id = some pid)
    (habs : ∀ p ∈ db.posts, p.postId ≠ pid) :
    (body.tags = [] → (editHandler db id body).2.outcome = Outcome.json []) ∧
    (body.tags ≠ [] →
      (editHandler db id body).2.outcome = Outcome.noResponse) := by
  have hany : (db.posts.any (fun p => decide (p.postId = pid))) = false := by
    rw [List.any_eq_false]
    intro p hp
    simp only [decide_eq_true_eq]
    exact habs p hp
  have hfil : db.posts.filter (fun p => decide (p.postId = pid)) = [] := by
    refine List.filter_eq_nil_iff.mpr ?_
    intro p hp
    simp only [decide_eq_true_eq]
    exact habs p hp
  unfold editHandler
  rw [hpid]
  constructor
  · intro htags
    unfold editTx
    dsimp only
    rw [htags]
    simp [hany, hfil]
  · intro htags
    unfold editTx
    dsimp only
    have hcond : ¬(List.map (fun n => TaggingRow.mk n pid)
        (List.map strTrim body.tags) = [] ∨
        (db.posts.any fun p => decide (p.postId = pid)) = true) := by
      rintro (hnil | hip)
      · exact htags (by simpa using hnil)
      · rw [hany] at hip
        cases hip
    rw [if_neg (by simp [hany]), if_neg hcond]

/-- Witness for the amended C6: both branches at post identity 5 on a
store whose only post is post 1. -/
theorem claim_c6_witness :
    (editHandler cDbNoTag "5" cEditNoTags).2.outcome = Outcome.json [] ∧
    (editHandler cDbNoTag "5" cEditTwoTags).2.outcome = Outcome.noResponse :=
  ⟨(claim_c6_edit_missing_post cDbNoTag "5" 5 cEditNoTags (by decide)
      (by decide)).1 rfl,
   (claim_c6_edit_missing_post cDbNoTag "5" 5 cEditTwoTags (by decide)
      (by decide)).2 (by decide)⟩

/-- C9: the tag-vocabulary upsert is idempotent and conflict-free:
submitting names that all already exist leaves the table unchanged (no
error, no second row), and the no-duplicates invariant of the tags table
is preserved by every create and edit operation, so across any sequence of
such operations the table never holds two rows with the same name. -/
theorem claim_c9_tag_upsert_idempotent :
    (∀ tbl names : List String, (∀ n ∈ names, n ∈ tbl) →
      upsertTags tbl names = tbl) ∧
    (∀ (db : DB) (inp : UploadInput), db.tags.Nodup →
      ((uploadHandler db inp).1).tags.Nodup) ∧
    (∀ (db : DB) (id : String) (body : EditBody), db.tags.Nodup →
      ((editHandler db id body).1).tags.Nodup) := by
  refine ⟨upsertTags_eq_of_subset, ?_, ?_⟩
  · intro db inp hnd
    unfold uploadHandler
    cases htx : uploadTx db inp with
    | ok v =>
      obtain ⟨db', rows⟩ := v
      obtain ⟨t, _, _, _, _, htags, _⟩ := uploadTx_ok_state db inp db' rows htx
      show db'.tags.Nodup
      rw [htags]
      exact nodup_upsertTags _ _ hnd
    | error e => exact hnd
  · intro db id body hnd
    unfold editHandler
    cases hcast : pgInt4Cast id with
    | none => exact hnd
    | some pid =>
      dsimp only
      cases htx : editTx db pid body with
      | ok v =>
        obtain ⟨db', rows⟩ := v
        obtain ⟨_, htags, _, _, _⟩ := editTx_ok_state db pid body db' rows htx
        show db'.tags.Nodup
        rw [htags]
        exact nodup_upsertTags _ _ hnd
      | error e => exact hnd

/-- Witness for C9: upserting an existing name is a no-op, and a concrete
create and a concrete edit both preserve the duplicate-free tag table. -/
theorem claim_c9_witness :
    upsertTags ["meme"] ["meme"] = ["meme"] ∧
    ((uploadHandler cDbTagged cUploadA).1).tags.Nodup ∧
    ((editHandler cDbTagged "1" cEditTwoTags).1).tags.Nodup :=
  ⟨claim_c9_tag_upsert_idempotent.1 ["meme"] ["meme"] (by decide),
   claim_c9_tag_upsert_idempotent.2.1 cDbTagged cUploadA (by decide),
   claim_c9_tag_upsert_idempotent.2.2 cDbTagged "1" cEditTwoTags (by decide)⟩

/-- C10: an edit of an existing post never alters the post's file
reference, user reference or creation timestamp, never touches the files
and users tables, and leaves the taggings of every other post unchanged;
only title, description and the edited post's taggings can change. -/
theorem claim_c10_edit_frame (db : DB) (id : String) (pid : Int)
    (body : EditBody) (hpid : pgInt4Cast id = some pid)
    (_hex : ∃ p ∈ db.posts, p.postId = pid) :
    ((editHandler db id body).1).posts.map
        (fun p => (p.postId, p.fileId, p.userId, p.createdAt)) =
      db.posts.map (fun p => (p.postId, p.fileId, p.userId, p.createdAt)) ∧
    ((editHandler db id body).1).files = db.files ∧
    ((editHandler db id body).1).users = db.users ∧
    ((editHandler db id body).1).taggings.filter
        (fun t => !(decide (t.postId = pid))) =
      db.taggings.filter (fun t => !(decide (t.postId = pid))) := by
  unfold editHandler
  rw [hpid]
  dsimp only
  cases htx : editTx db pid body with
  | error e => exact ⟨rfl, rfl, rfl, rfl⟩
  | ok v =>
    obtain ⟨db', rows⟩ := v
    obtain ⟨hposts, _, htaggings, hfiles, husers⟩ :=
      editTx_ok_state db pid body db' rows htx
    refine ⟨?_, hfiles, husers, ?_⟩
    · show db'.posts.map _ = _
      rw [hposts, List.map_map]
      refine List.map_congr_left ?_
      intro p _
      by_cases hc : p.postId = pid
      · simp [Function.comp, hc]
      · simp [Function.comp, hc]
    · show db'.taggings.filter _ = _
      rw [htaggings, List.filter_append]
      have h2 : ((body.tags.map strTrim).map
          (fun n => TaggingRow.mk n pid)).filter
          (fun t => !(decide (t.postId = pid))) = [] := by
        refine List.filter_eq_nil_iff.mpr ?_
        intro tg htg
        rcases List.mem_map.mp htg with ⟨n, _, rfl⟩
        simp
      rw [h2, List.append_nil, List.filter_filter]
      refine List.filter_congr ?_
      intro t _
      exact Bool.and_self _

/-- Witness for C10: editing existing post 1 with two tags preserves its
file and user references and its timestamp, the files and users tables,
and the (empty) set of taggings of other posts. -/
theorem claim_c10_witness :
    ((editHandler cDbTagged "1" cEditTwoTags).1).posts.map
        (fun p => (p.postId, p.fileId, p.userId, p.createdAt)) =
      cDbTagged.posts.map
        (fun p => (p.postId, p.fileId, p.userId, p.createdAt)) ∧
    ((editHandler cDbTagged "1" cEditTwoTags).1).files = cDbTagged.files ∧
    ((editHandler cDbTagged "1" cEditTwoTags).1).users = cDbTagged.users ∧
    ((editHandler cDbTagged "1" cEditTwoTags).1).taggings.filter
        (fun t => !(decide (t.postId = 1))) =
      cDbTagged.taggings.filter (fun t => !(decide (t.postId = 1))) :=
  claim_c10_edit_frame cDbTagged "1" 1 cEditTwoTags (by decide)
    ⟨cPost1, by decide, by decide⟩

/-- C5: every search request that passes validation returns only rows
whose rank strictly exceeds 0.01, sorted by descending rank, with at most
20 rows. -/
theorem claim_c5_search_threshold_order_limit (db : DB) (q cols : Option String)
    (rows : List SearchRow)
    (h : (searchHandler db q cols).outcome = Outcome.json rows) :
    rows.length ≤ 20 ∧
    rows.Pairwise (fun a b => b.ranks ≤ a.ranks) ∧
    ∀ r ∈ rows, rankThreshold < r.ranks := by
  unfold searchHandler at h
  cases q with
  | none => exact absurd h (by simp)
  | some qs =>
    dsimp only at h
    by_cases hqs : qs = ""
    · rw [if_pos hqs] at h
      exact absurd h (by simp)
    · rw [if_neg hqs] at h
      cases cols with
      | none => exact absurd h (by simp)
      | some cs =>
        dsimp only at h
        by_cases hcs : cs = ""
        · rw [if_pos hcs] at h
          exact absurd h (by simp)
        · rw [if_neg hcs] at h
          by_cases hall : (strSplitComma cs).contains "title" = false ∧
              (strSplitComma cs).contains "description" = false ∧
              (strSplitComma cs).contains "tags" = false ∧
              (strSplitComma cs).contains "username" = false
          · rw [if_pos hall] at h
            exact absurd h (by simp)
          · rw [if_neg hall] at h
            have hrows : searchRows db
                (ColumnsConfig.mk ((strSplitComma cs).contains "title")
                  ((strSplitComma cs).contains "description")
                  ((strSplitComma cs).contains "tags")
                  ((strSplitComma cs).contains "username"))
                (plainToTsquery qs) = rows := by
              simpa using h
            rw [← hrows]
            unfold searchRows
            refine ⟨List.length_take_le _ _, ?_, ?_⟩
            · exact List.Pairwise.sublist (List.take_sublist _ _)
                (pairwise_sortedByDesc _ _)
            · intro r hr
              have hr2 := (List.take_sublist 20 _).subset hr
              rw [mem_sortedByDesc] at hr2
              rcases List.mem_filter.mp hr2 with ⟨_, hpred⟩
              exact of_decide_eq_true hpred

/-- Witness for C5: a concrete validated search returns its rows and the
cap holds for them. -/
theorem claim_c5_witness :
    (searchRows cDbTagged (ColumnsConfig.mk false true false false)
      (plainToTsquery "drake")).length ≤ 20 :=
  (claim_c5_search_threshold_order_limit cDbTagged (some "drake")
    (some "description")
    (searchRows cDbTagged (ColumnsConfig.mk false true false false)
      (plainToTsquery "drake"))
    (by decide)).1

/-- Counterexample for C4: a post with zero taggings (but with its file
and user rows present) is dropped by the inner join with tag_arrays: the
full listing is empty, and the single-post lookup signals not-found,
instead of returning the post with an empty tag sequence. -/
theorem claim_c4_counterexample :
    cPost1 ∈ cDbNoTag.posts ∧
    (catalogRows cDbNoTag).map (fun r => r.postId) = [] ∧
    (viewHandler cDbNoTag "1").outcome = Outcome.clientError 404
      (String.mk ("unable to find entry with id: ".data ++ "1".data)) := by
  decide

/-- C4 (amended): the read projections inner-join with tag_arrays, so a
post appears in the full listing, in some page of the offset listing and
in the single-post lookup whenever it has at least one tagging and its
file and user rows exist; a post with zero taggings is absent from the
full listing, its single-post select is empty, and the single-post
endpoint reports not-found for it. -/
theorem claim_c4_posts_need_taggings :
    (∀ (db : DB) (p : PostRow), p ∈ db.posts →
      (∃ tg ∈ db.taggings, tg.postId = p.postId) →
      (∃ f ∈ db.files, f.fileId = p.fileId) →
      (∃ u ∈ db.users, u.userId = p.userId) →
      p.postId ∈ (catalogRows db).map (fun r => r.postId) ∧
      (∃ off : Nat, p.postId ∈ (catalogPage db off).map (fun r => r.postId)) ∧
      p.postId ∈ (viewRows db p.postId).map (fun r => r.postId)) ∧
    (∀ (db : DB) (pid : Int), (∀ tg ∈ db.taggings, tg.postId ≠ pid) →
      pid ∉ (catalogRows db).map (fun r => r.postId) ∧
      viewRows db pid = []) ∧
    (∀ (db : DB) (s : String) (v : JsNum) (pid : Int),
      jsToNumber s = some v → (jsGeOne v && jsLeMax v) = true →
      pgInt4Cast s = some pid →
      (∀ tg ∈ db.taggings, tg.postId ≠ pid) →
      (viewHandler db s).outcome = Outcome.clientError 404
        (String.mk ("unable to find entry with id: ".data ++ s.data))) := by
  have habsent : ∀ (db : DB) (pid : Int),
      (∀ tg ∈ db.taggings, tg.postId ≠ pid) → viewRows db pid = [] := by
    intro db pid hno
    unfold viewRows
    rw [List.eq_nil_iff_forall_not_mem]
    intro r hr
    rcases mem_joinedRowsFor db _ r hr with ⟨p, hp, _, tg, htg, htgid⟩
    rcases List.mem_filter.mp hp with ⟨_, hpid⟩
    exact hno tg htg (htgid.trans (of_decide_eq_true hpid))
  refine ⟨?_, ?_, ?_⟩
  · intro db p hp ⟨tg, htg, htgid⟩ ⟨f, hf, hfid⟩ ⟨u, hu, huid⟩
    have hrow := joinedRowsFor_intro db db.posts p f u tg hp hf hfid hu
      huid htg htgid
    refine ⟨?_, ?_, ?_⟩
    · exact List.mem_map.mpr
        ⟨_, (mem_sortedByDesc _ _ _).mpr hrow, rfl⟩
    · have hrow2 := (mem_sortedByAsc (fun r : CatalogRow => r.createdAt)
        _ _).mpr hrow
      rcases mem_window_of_mem _ _ hrow2 with ⟨n, hn⟩
      exact ⟨n, List.mem_map.mpr ⟨_, hn, rfl⟩⟩
    · have hp2 : p ∈ db.posts.filter (fun q => decide (q.postId = p.postId)) :=
        List.mem_filter.mpr ⟨hp, decide_eq_true rfl⟩
      exact List.mem_map.mpr
        ⟨_, joinedRowsFor_intro db _ p f u tg hp2 hf hfid hu huid htg
          htgid, rfl⟩
  · intro db pid hno
    refine ⟨?_, habsent db pid hno⟩
    intro hmem
    rcases List.mem_map.mp hmem with ⟨r, hr, hrid⟩
    unfold catalogRows at hr
    rw [mem_sortedByDesc] at hr
    rcases mem_joinedRowsFor db _ r hr with ⟨p, _, hrp, tg, htg, htgid⟩
    exact hno tg htg (htgid.trans (hrp ▸ hrid))
  · intro db s v pid hjs hb hcast hno
    unfold viewHandler
    rw [hjs]
    dsimp only
    rw [if_pos hb, hcast]
    dsimp only
    rw [habsent db pid hno]

/-- Witness for the amended C4: the tagged post 1 shows up in the full
listing and the single-post select of its store, while the untagged post 1
of the other store makes the single-post endpoint answer not-found. -/
theorem claim_c4_witness :
    (1 : Int) ∈ (catalogRows cDbTagged).map (fun r => r.postId) ∧
    (1 : Int) ∈ (viewRows cDbTagged 1).map (fun r => r.postId) ∧
    (viewHandler cDbNoTag "1").outcome = Outcome.clientError 404
      (String.mk ("unable to find entry with id: ".data ++ "1".data)) :=
  ⟨(claim_c4_posts_need_taggings.1 cDbTagged cPost1 (by decide) (by decide)
      (by decide) (by decide)).1,
   (claim_c4_posts_need_taggings.1 cDbTagged cPost1 (by decide) (by decide)
      (by decide) (by decide)).2.2,
   claim_c4_posts_need_taggings.2.2 cDbNoTag "1" (JsNum.finite 1) 1
      (by decide) (by decide) (by decide) (by decide)⟩

theorem tagArrays_agree (cfg : ColumnsConfig) {db1 db2 : DB}
    (h : List.Forall₂ (TaggingAgree cfg) db1.taggings db2.taggings) :
    List.Forall₂ (TagArrAgree cfg) (tagArrays db1) (tagArrays db2) := by
  have hpid : db1.taggings.map (fun t => t.postId) =
      db2.taggings.map (fun t => t.postId) :=
    forall2_map_eq h (fun a b hab => hab.1)
  unfold tagArrays
  rw [hpid]
  refine forall2_map_same _ ?_
  intro pid _
  refine ⟨rfl, ?_⟩
  intro htags
  unfold tagNamesOf
  refine forall2_map_eq (forall2_filter h ?_) ?_
  · intro a b hab
    rw [hab.1]
  · intro a b hab
    exact hab.2 htags

theorem postsWithTags_agree (cfg : ColumnsConfig) {db1 db2 : DB}
    (hp : List.Forall₂ (PostAgree cfg) db1.posts db2.posts)
    (hu : List.Forall₂ (UserAgree cfg) db1.users db2.users)
    (ht : List.Forall₂ (TaggingAgree cfg) db1.taggings db2.taggings) :
    List.Forall₂ (PwtAgree cfg) (postsWithTags db1) (postsWithTags db2) := by
  have hta := tagArrays_agree cfg ht
  unfold postsWithTags
  refine forall2_flatMap hp ?_
  intro p q hpq
  refine forall2_flatMap (forall2_filter hu ?_) ?_
  · intro u v huv
    rw [huv.1, hpq.2.2.1]
  · intro u v huv
    refine forall2_map_rel (forall2_filter hta ?_) ?_
    · intro x y hxy
      rw [hxy.1, hpq.1]
    · intro x y hxy
      exact ⟨hpq, huv, fun htags => by
        show spaceJoin x.2 = spaceJoin y.2
        rw [hxy.2 htags]⟩

theorem weights_agree (cfg : ColumnsConfig) {r s : PwtRow}
    (h : PwtAgree cfg r s) : weights cfg r = weights cfg s := by
  obtain ⟨hp, hu, hts⟩ := h
  unfold weights
  have h1 : (if cfg.title then setweightVector TsWeight.A r.post.title
      else []) =
      (if cfg.title then setweightVector TsWeight.A s.post.title else []) := by
    cases hc : cfg.title
    · simp
    · simp only [if_true]
      rw [hp.2.2.2.1 hc]
  have h2 : (if cfg.description then
      setweightVector TsWeight.B r.post.description else []) =
      (if cfg.description then setweightVector TsWeight.B s.post.description
        else []) := by
    cases hc : cfg.description
    · simp
    · simp only [if_true]
      rw [hp.2.2.2.2 hc]
  have h3 : (if cfg.tags then setweightVector TsWeight.C r.tagSearch
      else []) =
      (if cfg.tags then setweightVector TsWeight.C s.tagSearch else []) := by
    cases hc : cfg.tags
    · simp
    · simp only [if_true]
      rw [hts hc]
  have h4 : (if cfg.username then setweightVector TsWeight.D r.user.username
      else []) =
      (if cfg.username then setweightVector TsWeight.D s.user.username
        else []) := by
    cases hc : cfg.username
    · simp
    · simp only [if_true]
      rw [hu.2 hc]
  rw [h1, h2, h3, h4]

theorem searchRows_agree (cfg : ColumnsConfig) (qts : List String)
    {db1 db2 : DB} (h : SearchAgree cfg db1 db2) :
    (searchRows db1 cfg qts).map (fun r => (r.postId, r.ranks)) =
    (searchRows db2 cfg qts).map (fun r => (r.postId, r.ranks)) := by
  obtain ⟨hp, hu, ht, hf⟩ := h
  have hta := tagArrays_agree cfg ht
  have hpwt := postsWithTags_agree cfg hp hu ht
  have hrk : List.Forall₂ (fun (a b : PwtRow × Int) =>
      PwtAgree cfg a.1 b.1 ∧ a.2 = b.2)
      (searchRanking db1 cfg qts) (searchRanking db2 cfg qts) := by
    unfold searchRanking
    refine forall2_map_rel hpwt ?_
    intro a b hab
    exact ⟨hab, by rw [weights_agree cfg hab]⟩
  have hjoin : List.Forall₂ (fun (a b : SearchRow) =>
      a.postId = b.postId ∧ a.ranks = b.ranks)
      (searchJoinRows db1 cfg qts) (searchJoinRows db2 cfg qts) := by
    unfold searchJoinRows
    refine forall2_flatMap hrk ?_
    intro rk1 rk2 hrk12
    refine forall2_flatMap (forall2_filter hp ?_) ?_
    · intro p q hpq
      rw [hpq.1, hrk12.1.1.1]
    · intro p q hpq
      refine forall2_flatMap (forall2_filter hf ?_) ?_
      · intro f g hfg
        rw [hfg, hpq.2.1]
      · intro f g hfg
        refine forall2_flatMap (forall2_filter hu ?_) ?_
        · intro u v huv
          rw [huv.1, hpq.2.2.1]
        · intro u v huv
          refine forall2_map_rel (forall2_filter hta ?_) ?_
          · intro x y hxy
            rw [hxy.1, hpq.1]
          · intro x y hxy
            exact ⟨hpq.1, hrk12.2⟩
  have hfil : List.Forall₂ (fun (a b : SearchRow) =>
      a.postId = b.postId ∧ a.ranks = b.ranks)
      ((searchJoinRows db1 cfg qts).filter
        (fun r => decide (rankThreshold < r.ranks)))
      ((searchJoinRows db2 cfg qts).filter
        (fun r => decide (rankThreshold < r.ranks))) :=
    forall2_filter hjoin (fun a b hab => by rw [hab.2])
  have hsort := forall2_sortedByDesc
    (f := fun r : SearchRow => r.ranks) (g := fun r : SearchRow => r.ranks)
    (fun a b hab => hab.2) hfil
  have htake := List.forall₂_take 20 hsort
  exact forall2_map_eq htake (fun a b hab => by rw [hab.1, hab.2])

/-- C2: disabled search columns never influence ranking.  First, two
stores whose contents agree on everything except columns outside the
enabled subset (disabled post title or description, tag names when tags
are disabled, usernames when username is disabled, and all non-key file
columns) produce identical ranked results, as (postId, rank) sequences.
Second, a post none of whose rows has any enabled-column lexeme matching
the query does not appear in the result at all. -/
theorem claim_c2_disabled_columns_no_influence :
    (∀ (cfg : ColumnsConfig) (qts : List String) (db1 db2 : DB),
      SearchAgree cfg db1 db2 →
      (searchRows db1 cfg qts).map (fun r => (r.postId, r.ranks)) =
        (searchRows db2 cfg qts).map (fun r => (r.postId, r.ranks))) ∧
    (∀ (db : DB) (cfg : ColumnsConfig) (qts : List String) (pid : Int),
      (∀ w ∈ postsWithTags db, w.post.postId = pid →
        ∀ t ∈ qts, ∀ e ∈ weights cfg w, e.1 ≠ t) →
      pid ∉ (searchRows db cfg qts).map (fun r => r.postId)) := by
  constructor
  · intro cfg qts db1 db2 h
    exact searchRows_agree cfg qts h
  · intro db cfg qts pid hno hmem
    rcases List.mem_map.mp hmem with ⟨r, hr, hrid⟩
    unfold searchRows at hr
    have hr2 := (List.take_sublist _ _).subset hr
    rw [mem_sortedByDesc] at hr2
    rcases List.mem_filter.mp hr2 with ⟨hrj, hpred⟩
    unfold searchJoinRows at hrj
    rcases List.mem_flatMap.mp hrj with ⟨rk, hrk, hrj⟩
    rcases List.mem_flatMap.mp hrj with ⟨p, hpf, hrj⟩
    rcases List.mem_flatMap.mp hrj with ⟨f, _, hrj⟩
    rcases List.mem_flatMap.mp hrj with ⟨u, _, hrj⟩
    rcases List.mem_map.mp hrj with ⟨ta, _, rfl⟩
    rcases List.mem_filter.mp hpf with ⟨_, hpid⟩
    unfold searchRanking at hrk
    rcases List.mem_map.mp hrk with ⟨w, hw, rfl⟩
    have hwpid : w.post.postId = pid := by
      have h1 : p.postId = w.post.postId := of_decide_eq_true hpid
      rw [← h1]
      exact hrid
    have hzero : tsRank (weights cfg w) qts = 0 :=
      tsRank_eq_zero _ _ (fun t ht e he => hno w hw hwpid t ht e he)
    have hlt : rankThreshold < tsRank (weights cfg w) qts :=
      of_decide_eq_true hpred
    rw [hzero] at hlt
    exact absurd hlt (by decide)

/-- Witness for C2: with only the title column enabled, blanking the
description of the drake post changes nothing in the ranked result, and
that post (whose only drake match is its disabled description) is absent
from the title-only search. -/
theorem claim_c2_witness :
    (searchRows cDbTagged cCfgTitle (plainToTsquery "drake")).map
        (fun r => (r.postId, r.ranks)) =
      (searchRows cDbTagged2 cCfgTitle (plainToTsquery "drake")).map
        (fun r => (r.postId, r.ranks)) ∧
    (1 : Int) ∉ (searchRows cDbTagged cCfgTitle
        (plainToTsquery "drake")).map (fun r => r.postId) :=
  ⟨claim_c2_disabled_columns_no_influence.1 cCfgTitle
      (plainToTsquery "drake") cDbTagged cDbTagged2
      ⟨List.Forall₂.cons
          ⟨rfl, rfl, rfl, fun _ => rfl, fun hx => absurd hx (by decide)⟩
          List.Forall₂.nil,
        List.Forall₂.cons ⟨rfl, fun _ => rfl⟩ List.Forall₂.nil,
        List.Forall₂.cons ⟨rfl, fun _ => rfl⟩ List.Forall₂.nil,
        List.Forall₂.cons rfl List.Forall₂.nil⟩,
   claim_c2_disabled_columns_no_influence.2 cDbTagged cCfgTitle
      (plainToTsquery "drake") 1 (by decide)⟩

end SymbolArtVault
